import Mathlib

/-!
Verification development for the `use-storage-state` key-addressed storage
synchronization engine.

The development shallowly embeds the engine of `src/useStorageState.ts`:

* a model of JavaScript values for the default JSON codec (`JVal`, with a
  serializer and a fuel-based parser modelling the platform pair
  `JSON.stringify` / `JSON.parse`, which the repository consumes as a
  pluggable strategy), together with the repository's `parseJSON` wrapper
  that maps the raw string `"undefined"` back to the value `undefined`;
* a model of the `MemoryStorage` fallback store (`memoryStorage.ts`);
* the engine itself: the per-key cache cell (`storageItem`), the snapshot
  computation (`getSnapshot`), the write path (`setState`), the remove path
  (`removeItem`), the notification bus (`triggerCallbacks`), the
  cross-context listener (`onStorage`) and the backend resolution
  (`storageOption` / `storageObj` / `resolvedStorage`).

Throwing JavaScript computations are modelled with `Except Unit`; the JS
value `undefined` is modelled as `none` of an `Option`.  Backend objects are
stateful: a backend is a `StorageLike σ` over an explicit state `σ`, and a
call either returns a result together with the successor state or throws.
-/

/-! ### Part I: the JSON value model and the default codec -/

/-- Model of a JavaScript value in the image of the default JSON codec.
`jundef` models the JavaScript value `undefined`; the remaining constructors
model JSON data (numbers restricted to integers, which is the slice relevant
to the engine's behavior; float formatting belongs to the platform codec and
is out of the repository's source). -/
inductive JVal where
  | jnull : JVal
  | jundef : JVal
  | jbool (b : Bool) : JVal
  | jnum (n : Int) : JVal
  | jstr (s : String) : JVal
  | jarr (elems : List JVal) : JVal
  | jobj (fields : List (String × JVal)) : JVal

/-- Decimal digit `d` (`d < 10`) rendered as a character. -/
def digitChar (d : Nat) : Char :=
  Char.ofNat (48 + d)

/-- Numeric value of a decimal digit character. -/
def digitVal (c : Char) : Nat :=
  c.toNat - 48

/-- Little-endian decimal digits of `n`, with explicit fuel (the fuel is
structurally decreasing, keeping the definition kernel-reducible). -/
def natChars : Nat → Nat → List Char
  | 0, _ => []
  | _ + 1, 0 => []
  | fuel + 1, n + 1 => digitChar ((n + 1) % 10) :: natChars fuel ((n + 1) / 10)

/-- Decimal rendering of a natural number. -/
def serNat (n : Nat) : List Char :=
  if n = 0 then ['0'] else (natChars n n).reverse

/-- Decimal rendering of an integer. -/
def serInt : Int → List Char
  | .ofNat m => serNat m
  | .negSucc m => '-' :: serNat (m + 1)

/-- Escape a single character of a JSON string body: quotation marks and
backslashes are escaped with a backslash, other characters pass verbatim. -/
def escChar (c : Char) : List Char :=
  if c = '"' ∨ c = '\\' then ['\\', c] else [c]

/-- Escape a JSON string body. -/
def escList : List Char → List Char
  | [] => []
  | c :: cs => escChar c ++ escList cs

/-- Serialize a string literal, quotes included. -/
def serStr (s : String) : List Char :=
  '"' :: (escList s.data ++ ['"'])

mutual

/-- Serializer modelling `JSON.stringify` on the `JVal` slice (no
whitespace, which matches the platform's default).  A nested `undefined`
serializes as `null`, matching the platform's array behavior. -/
def serVal : JVal → List Char
  | .jnull => ['n', 'u', 'l', 'l']
  | .jundef => ['n', 'u', 'l', 'l']
  | .jbool true => ['t', 'r', 'u', 'e']
  | .jbool false => ['f', 'a', 'l', 's', 'e']
  | .jnum n => serInt n
  | .jstr s => serStr s
  | .jarr [] => ['[', ']']
  | .jarr (x :: xs) => '[' :: (serElems (x :: xs) ++ [']'])
  | .jobj [] => ['{', '}']
  | .jobj (f :: fs) => '{' :: (serFields (f :: fs) ++ ['}'])

/-- Comma-separated serialization of array elements. -/
def serElems : List JVal → List Char
  | [] => []
  | [x] => serVal x
  | x :: y :: xs => serVal x ++ ',' :: serElems (y :: xs)

/-- Comma-separated serialization of object fields. -/
def serFields : List (String × JVal) → List Char
  | [] => []
  | [(k, v)] => serStr k ++ ':' :: serVal v
  | (k, v) :: f :: fs => serStr k ++ ':' :: serVal v ++ ',' :: serFields (f :: fs)

end

mutual

/-- Values containing no `undefined`: the JSON-representable values, for
which the platform codec round-trips. -/
def noUndef : JVal → Bool
  | .jundef => false
  | .jarr l => noUndefL l
  | .jobj fs => noUndefF fs
  | _ => true

/-- List version of `noUndef`. -/
def noUndefL : List JVal → Bool
  | [] => true
  | x :: xs => noUndef x && noUndefL xs

/-- Field-list version of `noUndef`. -/
def noUndefF : List (String × JVal) → Bool
  | [] => true
  | (_, v) :: fs => noUndef v && noUndefF fs

end

mutual

/-- Fuel needed by the parser below on the serialization of a value. -/
def jweight : JVal → Nat
  | .jarr l => 1 + jweightL l
  | .jobj fs => 1 + jweightF fs
  | _ => 1

/-- Fuel needed by the element parser on a serialized element list. -/
def jweightL : List JVal → Nat
  | [] => 1
  | x :: xs => 1 + max (jweight x) (jweightL xs)

/-- Fuel needed by the field parser on a serialized field list. -/
def jweightF : List (String × JVal) → Nat
  | [] => 1
  | (_, v) :: fs => 1 + max (jweight v) (jweightF fs)

end

/-- Unescape the character following a backslash in a JSON string body. -/
def unesc (c : Char) : Char :=
  if c = 'n' then '\n'
  else if c = 't' then '\t'
  else if c = 'r' then '\r'
  else c

/-- Parse the body of a JSON string, stopping at the closing quotation mark
and returning the unescaped body together with the remaining input. -/
def parseStrBody : List Char → Option (List Char × List Char)
  | [] => none
  | c :: rest =>
    if c = '"' then some ([], rest)
    else if c = '\\' then
      match rest with
      | [] => none
      | e :: rest' =>
        match parseStrBody rest' with
        | some (s, r) => some (unesc e :: s, r)
        | none => none
    else
      match parseStrBody rest with
      | some (s, r) => some (c :: s, r)
      | none => none

/-- Parse a nonempty run of decimal digits into a natural number. -/
def parseDigits (cs : List Char) : Option (Nat × List Char) :=
  let ds := cs.takeWhile (·.isDigit)
  if ds = [] then none
  else some (ds.foldl (fun acc c => acc * 10 + digitVal c) 0, cs.dropWhile (·.isDigit))

/-- Strip an expected literal sequence from the front of the input. -/
def strip : List Char → List Char → Option (List Char)
  | [], cs => some cs
  | _ :: _, [] => none
  | p :: ps, c :: cs => if c = p then strip ps cs else none

/-- Test whether the input starts with a given character. -/
def headIs (c : Char) : List Char → Bool
  | [] => false
  | c' :: _ => c' = c

mutual

/-- Recursive-descent parser modelling `JSON.parse` on serializer output.
The fuel bounds the nesting depth; `jweight` fuel suffices on serialized
values. -/
def parseVal : Nat → List Char → Option (JVal × List Char)
  | 0, _ => none
  | _ + 1, [] => none
  | fuel + 1, c :: rest =>
    if c = 'n' then
      match strip ['u', 'l', 'l'] rest with
      | some r => some (.jnull, r)
      | none => none
    else if c = 't' then
      match strip ['r', 'u', 'e'] rest with
      | some r => some (.jbool true, r)
      | none => none
    else if c = 'f' then
      match strip ['a', 'l', 's', 'e'] rest with
      | some r => some (.jbool false, r)
      | none => none
    else if c = '"' then
      match parseStrBody rest with
      | some (s, r) => some (.jstr (String.mk s), r)
      | none => none
    else if c = '[' then
      if headIs ']' rest then some (.jarr [], rest.tail)
      else
        match parseElems fuel rest with
        | some (l, r) => some (.jarr l, r)
        | none => none
    else if c = '{' then
      if headIs '}' rest then some (.jobj [], rest.tail)
      else
        match parseFields fuel rest with
        | some (fs, r) => some (.jobj fs, r)
        | none => none
    else if c = '-' then
      match parseDigits rest with
      | some (n, r) => some (.jnum (-(n : Int)), r)
      | none => none
    else
      match parseDigits (c :: rest) with
      | some (n, r) => some (.jnum (n : Int), r)
      | none => none

/-- Parse one or more comma-separated values followed by a closing
bracket. -/
def parseElems : Nat → List Char → Option (List JVal × List Char)
  | 0, _ => none
  | fuel + 1, cs =>
    match parseVal fuel cs with
    | none => none
    | some (v, r) =>
      match r with
      | ',' :: r' =>
        match parseElems fuel r' with
        | some (l, r'') => some (v :: l, r'')
        | none => none
      | ']' :: r' => some ([v], r')
      | _ => none

/-- Parse one or more comma-separated string-keyed fields followed by a
closing brace. -/
def parseFields : Nat → List Char → Option (List (String × JVal) × List Char)
  | 0, _ => none
  | fuel + 1, cs =>
    match cs with
    | '"' :: cs' =>
      match parseStrBody cs' with
      | none => none
      | some (k, r) =>
        match r with
        | ':' :: r' =>
          match parseVal fuel r' with
          | none => none
          | some (v, r'') =>
            match r'' with
            | ',' :: r3 =>
              match parseFields fuel r3 with
              | some (fs, r4) => some ((String.mk k, v) :: fs, r4)
              | none => none
            | '}' :: r3 => some ([(String.mk k, v)], r3)
            | _ => none
        | _ => none
    | _ => none

end

/-- Model of the platform `JSON.stringify` at the top level: serializing the
value `undefined` yields no string at all (the JavaScript result is the
value `undefined`, not a string). -/
def jsonStringifyTop (v : JVal) : Option String :=
  match v with
  | .jundef => none
  | _ => some (String.mk (serVal v))

/-- Model of `Storage.setItem`'s coercion of its second argument: the
JavaScript value `undefined` reaching a Storage write is coerced to the
string `"undefined"`; an actual string is stored verbatim. -/
def setItemCoerce : Option String → String
  | none => "undefined"
  | some s => s

/-- The raw string that the engine's write path stores for a value under the
default codec: `JSON.stringify` followed by the `setItem` string coercion. -/
def encodeDefault (v : JVal) : String :=
  setItemCoerce (jsonStringifyTop v)

/-- Model of the platform `JSON.parse`: a full parse of the input succeeds,
anything else throws. -/
def jsonParse (s : String) : Except Unit JVal :=
  match parseVal (s.data.length + 1) s.data with
  | some (v, []) => .ok v
  | _ => .error ()

/-- The repository's `parseJSON` wrapper (`useStorageState.ts`, lines
230-232): the raw string `"undefined"` decodes to the value `undefined`,
anything else is passed to `JSON.parse`. -/
def parseJSON (value : String) : Except Unit JVal :=
  if value = "undefined" then .ok .jundef else jsonParse value

/-! ### Part II: the `MemoryStorage` fallback store -/

/-- State of the `MemoryStorage` class: the backing `Map<string, string>`,
modelled as an association list without duplicate keys by construction. -/
def MemMap : Type := List (String × String)

/-- Lookup in the backing map (`Map.get`). -/
def msGet : MemMap → String → Option String
  | [], _ => none
  | (k', v) :: rest, k => if k' = k then some v else msGet rest k

/-- Insertion into the backing map (`Map.set`): overwrites an existing
binding, otherwise appends. -/
def msSet : MemMap → String → String → MemMap
  | [], k, v => [(k, v)]
  | (k', v') :: rest, k, v =>
    if k' = k then (k, v) :: rest else (k', v') :: msSet rest k v

/-- Deletion from the backing map (`Map.delete`). -/
def msDelete : MemMap → String → MemMap
  | [], _ => []
  | (k', v') :: rest, k =>
    if k' = k then msDelete rest k else (k', v') :: msDelete rest k

/-- `MemoryStorage.getItem`: when the map has the key, return the stored
value (`"undefined"` if the stored value were the value `undefined`, which
cannot happen for string values); otherwise return `null`. -/
def memGetItem (m : MemMap) (key : String) : Option String :=
  if (msGet m key).isSome then
    some (match msGet m key with
          | some value => value
          | none => "undefined")
  else
    none

/-- `MemoryStorage.setItem`. -/
def memSetItem (m : MemMap) (key value : String) : MemMap :=
  msSet m key value

/-- `MemoryStorage.removeItem`. -/
def memRemoveItem (m : MemMap) (key : String) : MemMap :=
  msDelete m key

/-! ### Part III: the engine -/

/-- A Storage-compatible backend over an explicit state `σ`: each operation
either returns (reads yield `some` raw string or `none` for JavaScript
`null`; writes yield the successor state) or throws. -/
structure StorageLike (σ : Type) where
  getItem : σ → String → Except Unit (Option String)
  setItem : σ → String → String → Except Unit σ
  removeItem : σ → String → Except Unit σ

/-- The repository's `goodTry` failure boundary: run a throwing computation,
returning `undefined` (here `none`) when it throws. -/
def goodTry {α : Type} (tryFn : Except Unit α) : Option α :=
  match tryFn with
  | .ok v => some v
  | .error _ => none

/-- The per-key cache cell kept in the `storageItem` ref: the last observed
raw string (`none` models JavaScript `null`) and its decoded value (`none`
models the decoded value `undefined`). -/
structure StorageItem (α : Type) where
  string : Option String
  parsed : Option α
deriving DecidableEq, Repr

/-- The initial cache cell (the `useRef` initializer, lines 91-97). -/
def initialStorageItem {α : Type} (defaultValue : Option α) : StorageItem α :=
  { string := none, parsed := defaultValue }

/-- Result of one snapshot computation: the updated cell, the (possibly
seeded) backend state, the returned value, plus instrumentation: the raw
string read, how many times the codec's decode ran, whether the
default-seeding branch ran (issuing `setItem`), and whether that seeding
write succeeded. -/
structure SnapOut (σ α : Type) where
  item : StorageItem α
  store : Option σ
  value : Option α
  raw : Option String
  decodeCalls : Nat
  seedAttempt : Bool
  seedStored : Bool

/-- The raw read of the snapshot computation (line 118-121):
`storage === undefined ? null : goodTry(() => storage.getItem(key)) ?? null`. -/
def rawRead {σ : Type} (L : StorageLike σ) (key : String) (storage : Option σ) :
    Option String :=
  match storage with
  | none => none
  | some s => (goodTry (L.getItem s key)).getD none

/-- The snapshot computation (`useSyncExternalStore.getSnapshot`, lines
117-162): read the raw string, recompute the decoded value only when the
raw string changed (a throwing decode falls back to the default), update
the cell's raw string, then run the default-seeding branch when
`storeDefault` is set, the raw string was `null`, a backend handle exists
and the default is not `undefined`. -/
def getSnapshot {σ α : Type} (L : StorageLike σ) (key : String)
    (defaultValue : Option α) (storeDefault : Bool)
    (parse : String → Except Unit (Option α)) (stringify : Option α → String)
    (storage : Option σ) (item : StorageItem α) : SnapOut σ α :=
  let str := rawRead L key storage
  let pc : Option α × Nat :=
    if str ≠ item.string then
      match str with
      | none => (defaultValue, 0)
      | some raw =>
        match parse raw with
        | .ok p => (p, 1)
        | .error _ => (defaultValue, 1)
    else (item.parsed, 0)
  let item2 : StorageItem α := { string := str, parsed := pc.1 }
  match storage with
  | some s =>
    if storeDefault && str.isNone && defaultValue.isSome then
      match L.setItem s key (stringify defaultValue) with
      | .ok s' =>
        { item := { string := some (stringify defaultValue), parsed := defaultValue },
          store := some s', value := defaultValue, raw := str,
          decodeCalls := pc.2, seedAttempt := true, seedStored := true }
      | .error _ =>
        { item := item2, store := some s, value := item2.parsed, raw := str,
          decodeCalls := pc.2, seedAttempt := true, seedStored := false }
    else
      { item := item2, store := some s, value := item2.parsed, raw := str,
        decodeCalls := pc.2, seedAttempt := false, seedStored := false }
  | none =>
    { item := item2, store := none, value := item2.parsed, raw := str,
      decodeCalls := pc.2, seedAttempt := false, seedStored := false }

/-- A `SetStateAction`: either a plain new value or an updater applied to
the last decoded value. -/
inductive SetStateAction (α : Type) where
  | value (v : Option α) : SetStateAction α
  | updater (f : Option α → Option α) : SetStateAction α

/-- Result of a write or remove: the backend state afterwards and the key
passed to `triggerCallbacks`, if the operation published at all. -/
structure WriteOut (σ : Type) where
  store : Option σ
  triggeredKey : Option String

/-- The write path (`setState`, lines 168-186): resolve the new value
against the cell's decoded value, write through the failure boundary (a
throwing or absent backend leaves the backend unchanged), then
unconditionally notify the bus for the key. -/
def setState {σ α : Type} (L : StorageLike σ) (key : String)
    (stringify : Option α → String) (storage : Option σ) (item : StorageItem α)
    (newValue : SetStateAction α) : WriteOut σ :=
  let v : Option α :=
    match newValue with
    | .updater f => f item.parsed
    | .value w => w
  let store' : Option σ :=
    match storage with
    | none => none
    | some s =>
      match L.setItem s key (stringify v) with
      | .ok s' => some s'
      | .error _ => some s
  { store := store', triggeredKey := some key }

/-- The remove path (`removeItem`, lines 188-193): only when a backend
handle exists, remove through the failure boundary and notify the bus;
without a handle the call does nothing at all. -/
def removeItem {σ : Type} (L : StorageLike σ) (key : String)
    (storage : Option σ) : WriteOut σ :=
  match storage with
  | none => { store := none, triggeredKey := none }
  | some s =>
    match L.removeItem s key with
    | .ok s' => { store := some s', triggeredKey := some key }
    | .error _ => { store := some s, triggeredKey := some key }

/-- One subscribed hook instance: its key, its cache cell, and whether its
`onStoreChange` has been invoked since last render. -/
structure Hook (α : Type) where
  key : String
  item : StorageItem α
  notified : Bool

/-- The notification bus (`triggerCallbacks`, lines 221-226), fanned out
over the registered hooks: each registered `onChange` compares its key and
invokes `onStoreChange` on a match. -/
def triggerCallbacks {α : Type} (key : String) (hooks : List (Hook α)) :
    List (Hook α) :=
  hooks.map fun h => if h.key = key then { h with notified := true } else h

/-- A JavaScript reference as compared by `===`: `null`, `undefined`, or an
object identity. -/
inductive JsRef where
  | jsNull : JsRef
  | jsUndefined : JsRef
  | ref (id : Nat) : JsRef
deriving DecidableEq

/-- Strict equality `===` on references: `null` and `undefined` are not
equal to each other, and objects compare by identity. -/
def jsStrictEq : JsRef → JsRef → Bool
  | .jsNull, .jsNull => true
  | .jsUndefined, .jsUndefined => true
  | .ref a, .ref b => a = b
  | _, _ => false

/-- A `StorageEvent` as delivered by the platform: `key` is a string or
`null`, `storageArea` is a `Storage` object or `null`. -/
structure StorageEventModel where
  key : Option String
  storageArea : Option Nat

/-- The storage area of an event as a reference. -/
def areaOfEvent : Option Nat → JsRef
  | none => .jsNull
  | some i => .ref i

/-- The configured backend, as the reference produced by
`goodTry(() => storage)`: `undefined` when no backend is configured. -/
def refOfStorage : Option Nat → JsRef
  | none => .jsUndefined
  | some i => .ref i

/-- The cross-context listener's test (`onStorage`, lines 203-207):
`e.key === key && e.storageArea === goodTry(() => storage)`. -/
def onStorage (key : String) (storageId : Option Nat) (e : StorageEventModel) :
    Bool :=
  (e.key = some key : Bool) && jsStrictEq (areaOfEvent e.storageArea) (refOfStorage storageId)

/-- Effect of a delivered storage event on the subscribed hooks: republish
to the bus when `onStorage`'s test passes, otherwise do nothing. -/
def handleStorageEvent {α : Type} (key : String) (storageId : Option Nat)
    (e : StorageEventModel) (hooks : List (Hook α)) : List (Hook α) :=
  if onStorage key storageId e then triggerCallbacks key hooks else hooks

/-- The `storage` option of `StorageStateOptions`: the string literals
`"local"` and `"session"`, a `StorageLike` object (identified by `β`), or an
explicit `undefined`. -/
inductive StorageSetting (β : Type) where
  | localLit : StorageSetting β
  | sessionLit : StorageSetting β
  | obj (s : β) : StorageSetting β
  | undef : StorageSetting β

/-- The options object, with property presence tracked: `storageProp = none`
models an options object without a `storage` key, and
`memoryFallback = none` models an absent or undefined `memoryFallback`. -/
structure OptionsModel (β : Type) where
  storageProp : Option (StorageSetting β)
  memoryFallback : Option Bool

/-- The host environment: accessing `localStorage` or `sessionStorage` can
itself throw. -/
structure EnvModel (β : Type) where
  localStorage : Except Unit β
  sessionStorage : Except Unit β

/-- Lines 56-59: `options !== undefined && "storage" in options
? options.storage : "local"`. -/
def storageOption {β : Type} (options : Option (OptionsModel β)) :
    StorageSetting β :=
  match options with
  | none => .localLit
  | some o =>
    match o.storageProp with
    | none => .localLit
    | some v => v

/-- Lines 60-65: resolve the literals against the environment through the
failure boundary; an explicit object passes through; explicit `undefined`
stays `undefined`. -/
def storageObj {β : Type} (env : EnvModel β) : StorageSetting β → Option β
  | .localLit => goodTry env.localStorage
  | .sessionLit => goodTry env.sessionStorage
  | .obj s => some s
  | .undef => none

/-- Lines 66-69: fall back to the process-wide `memoryStorage` when no
backend object resulted and `memoryFallback` is not `false`. -/
def resolvedStorage {β : Type} (env : EnvModel β) (memoryStorage : β)
    (options : Option (OptionsModel β)) : Option β :=
  let obj := storageObj env (storageOption options)
  if obj.isNone ∧ (options.bind (·.memoryFallback)) ≠ some false then
    some memoryStorage
  else
    obj

/-- The backend that every claim can instantiate: the `MemoryStorage` model
as a `StorageLike` (its operations never throw). -/
def memStorageLike : StorageLike MemMap :=
  { getItem := fun m k => .ok (memGetItem m k)
    setItem := fun m k v => .ok (memSetItem m k v)
    removeItem := fun m k => .ok (memRemoveItem m k) }

/-- A backend whose every call throws. -/
def throwingBackend (σ : Type) : StorageLike σ :=
  { getItem := fun _ _ => .error ()
    setItem := fun _ _ _ => .error ()
    removeItem := fun _ _ => .error () }

/-- Coherence of a cache cell with the codec: the decoded value is the one
the snapshot computation would produce from the stored raw string.  The
initial cell satisfies it, and `getSnapshot` preserves it. -/
def CellInv {α : Type} (parse : String → Except Unit (Option α))
    (defaultValue : Option α) (item : StorageItem α) : Prop :=
  match item.string with
  | none => item.parsed = defaultValue
  | some s =>
    item.parsed = match parse s with
                  | .ok p => p
                  | .error _ => defaultValue

/-- Value of a little-endian digit-character list. -/
def lval : List Char → Nat
  | [] => 0
  | c :: cs => digitVal c + 10 * lval cs

/-- No-digit-at-head condition for the continuation after a serialized number. -/
def NotDigitHead (cs : List Char) : Prop :=
  ∀ c cs', cs = c :: cs' → c.isDigit = false

/-- A small concrete codec over natural numbers, used to instantiate the
engine in concrete runs: `undefined` encodes through the `setItem` coercion
as `"undefined"`, a number as its decimal rendering. -/
def natStringify : Option Nat → String
  | none => "undefined"
  | some n => String.mk (serNat n)

/-- Decoder matching `natStringify`; any other input throws. -/
def natParse (s : String) : Except Unit (Option Nat) :=
  if s = "undefined" then .ok none
  else
    match parseDigits s.data with
    | some (n, []) => .ok (some n)
    | _ => .error ()

/-! ### Supporting lemmas -/

lemma digitChar_isDigit {d : Nat} (h : d < 10) : (digitChar d).isDigit = true := by
  interval_cases d <;> decide

lemma digitVal_digitChar {d : Nat} (h : d < 10) : digitVal (digitChar d) = d := by
  interval_cases d <;> decide

lemma natChars_digits : ∀ f n, ∀ c ∈ natChars f n, c.isDigit = true := by
  intro f
  induction f with
  | zero => intro n c hc; simp [natChars] at hc
  | succ f ih =>
    intro n c hc
    cases n with
    | zero => simp [natChars] at hc
    | succ m =>
      simp only [natChars, List.mem_cons] at hc
      rcases hc with rfl | hc
      · exact digitChar_isDigit (Nat.mod_lt _ (by omega))
      · exact ih _ _ hc

lemma lval_natChars : ∀ f n, n ≤ f → lval (natChars f n) = n := by
  intro f
  induction f with
  | zero => intro n h; interval_cases n; simp [natChars, lval]
  | succ f ih =>
    intro n h
    cases n with
    | zero => simp [natChars, lval]
    | succ m =>
      have hdiv : (m + 1) / 10 ≤ f := by omega
      simp only [natChars, lval, digitVal_digitChar (Nat.mod_lt _ (by omega)), ih _ hdiv]
      omega

lemma foldl_reverse_lval : ∀ l : List Char,
    l.reverse.foldl (fun acc c => acc * 10 + digitVal c) 0 = lval l := by
  intro l
  induction l with
  | nil => simp [lval]
  | cons c cs ih =>
    simp only [List.reverse_cons, List.foldl_append, List.foldl_cons, List.foldl_nil, ih, lval]
    ring

lemma serNat_digits {n : Nat} : ∀ c ∈ serNat n, c.isDigit = true := by
  intro c hc
  unfold serNat at hc
  split at hc
  · simp at hc; subst hc; decide
  · rw [List.mem_reverse] at hc
    exact natChars_digits _ _ _ hc

lemma serNat_ne_nil (n : Nat) : serNat n ≠ [] := by
  unfold serNat
  split
  · simp
  · simp only [ne_eq, List.reverse_eq_nil_iff]
    cases n with
    | zero => omega
    | succ m => simp [natChars]

lemma serNat_head (n : Nat) : ∃ c cs, serNat n = c :: cs ∧ c.isDigit = true := by
  obtain ⟨c, cs, h⟩ := List.exists_cons_of_ne_nil (serNat_ne_nil n)
  refine ⟨c, cs, h, serNat_digits (n := n) c ?_⟩
  rw [h]
  exact List.mem_cons_self c cs

lemma foldl_serNat (n : Nat) : (serNat n).foldl (fun acc c => acc * 10 + digitVal c) 0 = n := by
  unfold serNat
  split
  · subst ‹n = 0›; decide
  · rw [foldl_reverse_lval, lval_natChars n n le_rfl]

lemma takeWhile_all_append {p : Char → Bool} :
    ∀ (l r : List Char), (∀ c ∈ l, p c = true) → (∀ c cs', r = c :: cs' → p c = false) →
    (l ++ r).takeWhile p = l ∧ (l ++ r).dropWhile p = r := by
  intro l r hl hr
  induction l with
  | nil =>
    simp only [List.nil_append]
    cases r with
    | nil => simp
    | cons c cs' => simp [List.takeWhile, List.dropWhile, hr c cs' rfl]
  | cons c cs ih =>
    have hc : p c = true := hl c (List.mem_cons_self c cs)
    have := ih (fun x hx => hl x (List.mem_cons_of_mem c hx))
    simp [List.takeWhile, List.dropWhile, hc, this.1, this.2]

lemma parseDigits_serNat {n : Nat} {rest : List Char} (h : NotDigitHead rest) :
    parseDigits (serNat n ++ rest) = some (n, rest) := by
  obtain ⟨htake, hdrop⟩ :=
    takeWhile_all_append (serNat n) rest (fun c hc => serNat_digits c hc) h
  simp only [parseDigits, htake, hdrop, serNat_ne_nil n, if_neg, foldl_serNat]
  simp [serNat_ne_nil n, foldl_serNat]

lemma strip_append : ∀ (ps rest : List Char), strip ps (ps ++ rest) = some rest := by
  intro ps rest
  induction ps with
  | nil => simp [strip]
  | cons p ps ih => simp [strip, ih]

lemma parseStrBody_round : ∀ (l : List Char) (rest : List Char),
    parseStrBody (escList l ++ '"' :: rest) = some (l, rest) := by
  intro l
  induction l with
  | nil =>
    intro rest
    simp only [escList, List.nil_append]
    unfold parseStrBody
    simp
  | cons c cs ih =>
    intro rest
    by_cases hc : c = '"' ∨ c = '\\'
    · have hesc : escChar c = ['\\', c] := by simp [escChar, hc]
      have hun : unesc c = c := by
        rcases hc with rfl | rfl <;> decide
      simp only [escList, hesc, List.cons_append, List.append_assoc]
      rw [parseStrBody.eq_def]
      simp [ih, hun]
    · have hesc : escChar c = [c] := by simp [escChar, hc]
      push_neg at hc
      simp only [escList, hesc, List.cons_append, List.append_assoc]
      rw [parseStrBody.eq_def]
      simp [ih, hc.1, hc.2]

lemma string_mk_data (k : String) : String.mk k.data = k := rfl

lemma serInt_head (n : Int) : ∃ c cs, serInt n = c :: cs ∧ (c = '-' ∨ c.isDigit = true) := by
  cases n with
  | ofNat m =>
    obtain ⟨c, cs, h, hd⟩ := serNat_head m
    exact ⟨c, cs, h, Or.inr hd⟩
  | negSucc m => exact ⟨'-', serNat (m + 1), rfl, Or.inl rfl⟩

lemma serVal_head (v : JVal) :
    ∃ c cs, serVal v = c :: cs ∧
      (c = 'n' ∨ c = 't' ∨ c = 'f' ∨ c = '"' ∨ c = '[' ∨ c = '{' ∨ c = '-' ∨
        c.isDigit = true) := by
  cases v with
  | jnull => exact ⟨'n', _, rfl, by tauto⟩
  | jundef => exact ⟨'n', _, rfl, by tauto⟩
  | jbool b => cases b
               · exact ⟨'f', _, rfl, by tauto⟩
               · exact ⟨'t', _, rfl, by tauto⟩
  | jnum n =>
    obtain ⟨c, cs, h, hd⟩ := serInt_head n
    exact ⟨c, cs, by simpa [serVal] using h, by tauto⟩
  | jstr s => exact ⟨'"', _, rfl, by tauto⟩
  | jarr l => cases l
              · exact ⟨'[', _, rfl, by tauto⟩
              · exact ⟨'[', _, rfl, by tauto⟩
  | jobj fs => cases fs
               · exact ⟨'{', _, rfl, by tauto⟩
               · exact ⟨'{', _, rfl, by tauto⟩

lemma serVal_head_ne_rbracket (v : JVal) :
    ∃ c cs, serVal v = c :: cs ∧ c ≠ ']' := by
  obtain ⟨c, cs, h, hd⟩ := serVal_head v
  refine ⟨c, cs, h, ?_⟩
  rcases hd with rfl | rfl | rfl | rfl | rfl | rfl | rfl | hd
  · decide
  · decide
  · decide
  · decide
  · decide
  · decide
  · decide
  · intro hne; subst hne; simp at hd

lemma jweight_pos (v : JVal) : 1 ≤ jweight v := by
  cases v <;> simp [jweight]

lemma jweightL_pos (l : List JVal) : 1 ≤ jweightL l := by
  cases l <;> simp [jweightL]

lemma jweightF_pos (fs : List (String × JVal)) : 1 ≤ jweightF fs := by
  cases fs with
  | nil => simp [jweightF]
  | cons f fs => obtain ⟨k, v⟩ := f; simp [jweightF]

lemma isDigit_ne_literals {c : Char} (h : c.isDigit = true) :
    c ≠ 'n' ∧ c ≠ 't' ∧ c ≠ 'f' ∧ c ≠ '"' ∧ c ≠ '[' ∧ c ≠ '{' ∧ c ≠ '-' := by
  refine ⟨?_, ?_, ?_, ?_, ?_, ?_, ?_⟩ <;> (intro hne; subst hne; simp at h)

lemma notDigitHead_cons {c : Char} (h : c.isDigit = false) (cs : List Char) :
    NotDigitHead (c :: cs) := by
  intro c' cs' hc
  cases hc
  exact h

lemma parseVal_num (m : Nat) (fuel : Nat) (rest : List Char) (hr : NotDigitHead rest) :
    parseVal (fuel + 1) (serNat m ++ rest) = some (.jnum (m : Int), rest) := by
  obtain ⟨c, cs, h, hd⟩ := serNat_head m
  obtain ⟨h1, h2, h3, h4, h5, h6, h7⟩ := isDigit_ne_literals hd
  rw [h, List.cons_append, parseVal.eq_def]
  simp only [h1, h2, h3, h4, h5, h6, h7, if_false]
  rw [← List.cons_append, ← h, parseDigits_serNat hr]

lemma parseElems_round :
    ∀ (l : List JVal),
      (∀ x ∈ l, ∀ fuel rest, jweight x ≤ fuel → NotDigitHead rest →
        parseVal fuel (serVal x ++ rest) = some (x, rest)) →
      l ≠ [] →
      ∀ fuel rest, jweightL l ≤ fuel →
        parseElems fuel (serElems l ++ ']' :: rest) = some (l, rest) := by
  intro l
  induction l with
  | nil => intro _ h; exact absurd rfl h
  | cons x xs ih =>
    intro hx _ fuel rest hfuel
    have hwx : 1 + max (jweight x) (jweightL xs) ≤ fuel := by
      simpa [jweightL] using hfuel
    obtain ⟨f, rfl⟩ : ∃ f, fuel = f + 1 := ⟨fuel - 1, by omega⟩
    cases xs with
    | nil =>
      have hv := hx x (List.mem_cons_self x []) f (']' :: rest) (by omega)
        (notDigitHead_cons (by decide) rest)
      rw [serElems, parseElems.eq_def]
      simp [hv]
    | cons y ys =>
      have hv := hx x (List.mem_cons_self x (y :: ys)) f
        (',' :: (serElems (y :: ys) ++ ']' :: rest)) (by omega)
        (notDigitHead_cons (by decide) _)
      have htail := ih (fun z hz => hx z (List.mem_cons_of_mem x hz)) (by simp)
        f rest (by omega)
      rw [serElems, parseElems.eq_def]
      simp only [List.append_assoc, List.cons_append]
      simp [hv, htail]

lemma parseFields_round :
    ∀ (fs : List (String × JVal)),
      (∀ p ∈ fs, ∀ fuel rest, jweight p.2 ≤ fuel → NotDigitHead rest →
        parseVal fuel (serVal p.2 ++ rest) = some (p.2, rest)) →
      fs ≠ [] →
      ∀ fuel rest, jweightF fs ≤ fuel →
        parseFields fuel (serFields fs ++ '}' :: rest) = some (fs, rest) := by
  intro fs
  induction fs with
  | nil => intro _ h; exact absurd rfl h
  | cons p ps ih =>
    obtain ⟨k, v⟩ := p
    intro hx _ fuel rest hfuel
    have hwx : 1 + max (jweight v) (jweightF ps) ≤ fuel := by
      simpa [jweightF] using hfuel
    obtain ⟨f, rfl⟩ : ∃ f, fuel = f + 1 := ⟨fuel - 1, by omega⟩
    cases ps with
    | nil =>
      have hv := hx (k, v) (List.mem_cons_self _ []) f ('}' :: rest)
        (by show jweight v ≤ f; omega) (notDigitHead_cons (by decide) rest)
      rw [serFields, parseFields.eq_def]
      simp only [serStr, List.cons_append, List.append_assoc]
      rw [parseStrBody_round]
      simp [hv, string_mk_data]
    | cons q qs =>
      have hv := hx (k, v) (List.mem_cons_self _ (q :: qs)) f
        (',' :: (serFields (q :: qs) ++ '}' :: rest))
        (by show jweight v ≤ f; omega) (notDigitHead_cons (by decide) _)
      have htail := ih (fun z hz => hx z (List.mem_cons_of_mem _ hz)) (by simp)
        f rest (by omega)
      rw [serFields, parseFields.eq_def]
      simp only [serStr, List.cons_append, List.append_assoc]
      rw [parseStrBody_round]
      simp only [List.cons_append, List.append_assoc] at hv ⊢
      simp [hv, htail, string_mk_data]

lemma noUndefL_mem {l : List JVal} (h : noUndefL l = true) {x : JVal} (hx : x ∈ l) :
    noUndef x = true := by
  induction l with
  | nil => simp at hx
  | cons y ys ih =>
    simp only [noUndefL, Bool.and_eq_true] at h
    rcases List.mem_cons.mp hx with rfl | hx
    · exact h.1
    · exact ih h.2 hx

lemma noUndefF_mem {fs : List (String × JVal)} (h : noUndefF fs = true)
    {p : String × JVal} (hp : p ∈ fs) : noUndef p.2 = true := by
  induction fs with
  | nil => simp at hp
  | cons q qs ih =>
    obtain ⟨k, v⟩ := q
    simp only [noUndefF, Bool.and_eq_true] at h
    rcases List.mem_cons.mp hp with rfl | hp
    · exact h.1
    · exact ih h.2 hp

lemma serFields_head (p : String × JVal) (ps : List (String × JVal)) :
    ∃ t, serFields (p :: ps) = '"' :: t := by
  obtain ⟨k, v⟩ := p
  cases ps with
  | nil => exact ⟨_, rfl⟩
  | cons q qs => exact ⟨_, rfl⟩

lemma serElems_cons (x : JVal) (xs : List JVal) :
    ∃ t, serElems (x :: xs) = serVal x ++ t := by
  cases xs with
  | nil => exact ⟨[], by simp [serElems]⟩
  | cons y ys => exact ⟨_, rfl⟩

lemma parseVal_round_aux : ∀ (N : Nat) (v : JVal), sizeOf v ≤ N → noUndef v = true →
    ∀ fuel rest, jweight v ≤ fuel → NotDigitHead rest →
    parseVal fuel (serVal v ++ rest) = some (v, rest) := by
  intro N
  induction N with
  | zero =>
    intro v hv
    have : 0 < sizeOf v := by cases v <;> simp
    omega
  | succ N ih =>
    intro v hN hu fuel rest hfuel hrest
    obtain ⟨f, rfl⟩ : ∃ f, fuel = f + 1 :=
      ⟨fuel - 1, by have := jweight_pos v; omega⟩
    cases v with
    | jnull =>
      rw [serVal, List.cons_append, parseVal.eq_def]
      simp [strip]
    | jundef => simp [noUndef] at hu
    | jbool b =>
      cases b
      · rw [serVal, List.cons_append, parseVal.eq_def]
        simp [strip]
      · rw [serVal, List.cons_append, parseVal.eq_def]
        simp [strip]
    | jnum n =>
      cases n with
      | ofNat m =>
        rw [serVal, serInt]
        exact parseVal_num m f rest hrest
      | negSucc m =>
        rw [serVal, serInt, List.cons_append, parseVal.eq_def]
        simp only [reduceIte, Char.reduceEq]
        rw [parseDigits_serNat hrest]
        simp [Int.negSucc_eq]
    | jstr s =>
      rw [serVal, serStr, List.cons_append, parseVal.eq_def]
      simp only [reduceIte, Char.reduceEq]
      rw [List.append_assoc, List.singleton_append, parseStrBody_round]
    | jarr l =>
      cases l with
      | nil =>
        rw [serVal, List.cons_append, parseVal.eq_def]
        simp [headIs]
      | cons x xs =>
        have hw : 1 + jweightL (x :: xs) ≤ f + 1 := by
          simpa [jweight] using hfuel
        have hsz : sizeOf (x :: xs) ≤ N := by
          have : sizeOf (JVal.jarr (x :: xs)) = 1 + sizeOf (x :: xs) := by simp
          omega
        have hund : noUndefL (x :: xs) = true := by simpa [noUndef] using hu
        have helems : parseElems f (serElems (x :: xs) ++ ']' :: rest) =
            some (x :: xs, rest) := by
          refine parseElems_round (x :: xs) ?_ (by simp) f rest (by omega)
          intro z hz fuel' rest' hw' hr'
          have hzs : sizeOf z ≤ N := by
            have := List.sizeOf_lt_of_mem hz
            omega
          exact ih z hzs (noUndefL_mem hund hz) fuel' rest' hw' hr'
        obtain ⟨c, cs, hser, hc⟩ := serVal_head_ne_rbracket x
        obtain ⟨t, ht⟩ := serElems_cons x xs
        rw [serVal, List.cons_append, parseVal.eq_def]
        have hhead : headIs ']' (serElems (x :: xs) ++ ']' :: rest) = false := by
          rw [ht, hser]
          simp [headIs, hc]
        simp only [List.append_assoc, List.singleton_append]
        simp only [hhead, reduceIte, Char.reduceEq, Bool.false_eq_true, if_false]
        simp [helems]
    | jobj fs =>
      cases fs with
      | nil =>
        rw [serVal, List.cons_append, parseVal.eq_def]
        simp [headIs]
      | cons p ps =>
        have hw : 1 + jweightF (p :: ps) ≤ f + 1 := by
          simpa [jweight] using hfuel
        have hsz : sizeOf (p :: ps) ≤ N := by
          have : sizeOf (JVal.jobj (p :: ps)) = 1 + sizeOf (p :: ps) := by simp
          omega
        have hund : noUndefF (p :: ps) = true := by simpa [noUndef] using hu
        have hflds : parseFields f (serFields (p :: ps) ++ '}' :: rest) =
            some (p :: ps, rest) := by
          refine parseFields_round (p :: ps) ?_ (by simp) f rest (by omega)
          intro z hz fuel' rest' hw' hr'
          have hzs : sizeOf z.2 ≤ N := by
            have h1 := List.sizeOf_lt_of_mem hz
            obtain ⟨zk, zv⟩ := z
            have h2 : sizeOf ((zk, zv) : String × JVal) = 1 + sizeOf zk + sizeOf zv := by
              simp
            show sizeOf zv ≤ N
            omega
          exact ih z.2 hzs (noUndefF_mem hund hz) fuel' rest' hw' hr'
        obtain ⟨t, ht⟩ := serFields_head p ps
        rw [serVal, List.cons_append, parseVal.eq_def]
        have hhead : headIs '}' (serFields (p :: ps) ++ '}' :: rest) = false := by
          rw [ht]
          simp [headIs]
        simp only [List.append_assoc, List.singleton_append]
        simp only [hhead, reduceIte, Char.reduceEq, Bool.false_eq_true, if_false]
        simp [hflds]

lemma serVal_ne_nil (v : JVal) : serVal v ≠ [] := by
  obtain ⟨c, cs, h, _⟩ := serVal_head v
  simp [h]

lemma notDigitHead_nil : NotDigitHead [] := by
  intro c cs h
  cases h

lemma jweightL_le_len_of (l : List JVal)
    (h : ∀ x ∈ l, jweight x ≤ (serVal x).length) :
    jweightL l ≤ (serElems l).length + 1 := by
  induction l with
  | nil => simp [jweightL, serElems]
  | cons x xs ih =>
    have hx := h x (List.mem_cons_self x xs)
    have hnil : 1 ≤ (serVal x).length := by
      have := serVal_ne_nil x
      cases hv : serVal x with
      | nil => exact absurd hv this
      | cons c cs => simp
    cases xs with
    | nil =>
      simp only [jweightL, serElems]
      omega
    | cons y ys =>
      have htail := ih (fun z hz => h z (List.mem_cons_of_mem x hz))
      simp only [jweightL, serElems, List.length_append, List.length_cons] at htail ⊢
      omega

lemma jweightF_le_len_of (fs : List (String × JVal))
    (h : ∀ p ∈ fs, jweight p.2 ≤ (serVal p.2).length) :
    jweightF fs ≤ (serFields fs).length + 1 := by
  induction fs with
  | nil => simp [jweightF, serFields]
  | cons p ps ih =>
    obtain ⟨k, v⟩ := p
    have hx : jweight v ≤ (serVal v).length := h (k, v) (List.mem_cons_self _ ps)
    have hnil : 1 ≤ (serVal v).length := by
      have := serVal_ne_nil v
      cases hv : serVal v with
      | nil => exact absurd hv this
      | cons c cs => simp
    cases ps with
    | nil =>
      simp only [jweightF, serFields, List.length_append, List.length_cons]
      omega
    | cons q qs =>
      have htail := ih (fun z hz => h z (List.mem_cons_of_mem _ hz))
      simp only [jweightF, serFields, List.length_append, List.length_cons] at htail ⊢
      omega

lemma jweight_le_len_aux : ∀ (N : Nat) (v : JVal), sizeOf v ≤ N →
    jweight v ≤ (serVal v).length := by
  intro N
  induction N with
  | zero =>
    intro v hv
    have : 0 < sizeOf v := by cases v <;> simp
    omega
  | succ N ih =>
    intro v hN
    cases v with
    | jnull => simp [jweight, serVal]
    | jundef => simp [jweight, serVal]
    | jbool b => cases b <;> simp [jweight, serVal]
    | jnum n =>
      have : serInt n ≠ [] := by
        obtain ⟨c, cs, h, _⟩ := serInt_head n
        simp [h]
      cases hv : serInt n with
      | nil => exact absurd hv this
      | cons c cs => simp [jweight, serVal, hv]
    | jstr s => simp [jweight, serVal, serStr]
    | jarr l =>
      cases l with
      | nil => simp [jweight, jweightL, serVal]
      | cons x xs =>
        have hsz : sizeOf (x :: xs) ≤ N := by
          have : sizeOf (JVal.jarr (x :: xs)) = 1 + sizeOf (x :: xs) := by simp
          omega
        have hL := jweightL_le_len_of (x :: xs) (fun z hz => by
          have hzs : sizeOf z ≤ N := by
            have := List.sizeOf_lt_of_mem hz
            omega
          exact ih z hzs)
        simp only [jweight, serVal, List.length_cons, List.length_append,
          List.length_singleton] at hL ⊢
        omega
    | jobj fs =>
      cases fs with
      | nil => simp [jweight, jweightF, serVal]
      | cons p ps =>
        have hsz : sizeOf (p :: ps) ≤ N := by
          have : sizeOf (JVal.jobj (p :: ps)) = 1 + sizeOf (p :: ps) := by simp
          omega
        have hF := jweightF_le_len_of (p :: ps) (fun z hz => by
          have hzs : sizeOf z.2 ≤ N := by
            have h1 := List.sizeOf_lt_of_mem hz
            obtain ⟨zk, zv⟩ := z
            have h2 : sizeOf ((zk, zv) : String × JVal) = 1 + sizeOf zk + sizeOf zv := by
              simp
            show sizeOf zv ≤ N
            omega
          exact ih z.2 hzs)
        simp only [jweight, serVal, List.length_cons, List.length_append,
          List.length_singleton] at hF ⊢
        omega

lemma jweight_le_len (v : JVal) : jweight v ≤ (serVal v).length :=
  jweight_le_len_aux (sizeOf v) v le_rfl

lemma jsonParse_serVal (v : JVal) (h : noUndef v = true) :
    jsonParse (String.mk (serVal v)) = .ok v := by
  unfold jsonParse
  show (match parseVal ((serVal v).length + 1) (serVal v) with
        | some (w, []) => Except.ok w
        | _ => Except.error ()) = Except.ok v
  have hp := parseVal_round_aux (sizeOf v) v le_rfl h ((serVal v).length + 1) []
    (by have := jweight_le_len v; omega) notDigitHead_nil
  rw [List.append_nil] at hp
  rw [hp]

lemma undefined_data : ("undefined" : String) = String.mk ['u', 'n', 'd', 'e', 'f', 'i', 'n', 'e', 'd'] := rfl

lemma encode_ne_undefined (v : JVal) :
    String.mk (serVal v) ≠ "undefined" := by
  obtain ⟨c, cs, hser, hd⟩ := serVal_head v
  intro he
  rw [undefined_data] at he
  have hdata : serVal v = ['u', 'n', 'd', 'e', 'f', 'i', 'n', 'e', 'd'] :=
    congrArg String.data he
  rw [hser] at hdata
  have hc : c = 'u' := (List.cons.injEq _ _ _ _ ▸ hdata).1
  subst hc
  rcases hd with h' | h' | h' | h' | h' | h' | h' | h' <;> simp at h'

lemma jsonStringifyTop_eq (v : JVal) (h : noUndef v = true) :
    jsonStringifyTop v = some (String.mk (serVal v)) := by
  cases v
  case jundef => simp [noUndef] at h
  all_goals rfl

lemma getSnapshot_string_spec {σ α : Type} (L : StorageLike σ)
    (key : String) (defaultValue : Option α) (storeDefault : Bool)
    (parse : String → Except Unit (Option α)) (stringify : Option α → String)
    (storage : Option σ) (item : StorageItem α) :
    (getSnapshot L key defaultValue storeDefault parse stringify storage item).item.string =
      if (getSnapshot L key defaultValue storeDefault parse stringify storage item).seedStored = true
      then some (stringify defaultValue)
      else (getSnapshot L key defaultValue storeDefault parse stringify storage item).raw := by
  unfold getSnapshot
  cases storage with
  | none => simp
  | some s =>
    dsimp only
    split
    · split <;> simp
    · simp

lemma getSnapshot_stable {σ α : Type} (L : StorageLike σ)
    (hgs : ∀ m k v m', L.setItem m k v = .ok m' → L.getItem m' k = .ok (some v))
    (key : String) (defaultValue : Option α) (storeDefault : Bool)
    (parse : String → Except Unit (Option α)) (stringify : Option α → String)
    (storage : Option σ) (item : StorageItem α) :
    (getSnapshot L key defaultValue storeDefault parse stringify
      (getSnapshot L key defaultValue storeDefault parse stringify storage item).store
      (getSnapshot L key defaultValue storeDefault parse stringify storage item).item).decodeCalls
      = 0 ∧
    (getSnapshot L key defaultValue storeDefault parse stringify
      (getSnapshot L key defaultValue storeDefault parse stringify storage item).store
      (getSnapshot L key defaultValue storeDefault parse stringify storage item).item).value
      = (getSnapshot L key defaultValue storeDefault parse stringify storage item).value := by
  cases storage with
  | none => simp [getSnapshot, rawRead]
  | some s =>
    rcases hraw : rawRead L key (some s) with _ | r
    · cases hsd : storeDefault with
      | false => simp [getSnapshot, hraw]
      | true =>
        rcases hdv : defaultValue with _ | d
        · simp [getSnapshot, hraw]
        · rcases hset : L.setItem s key (stringify (some d)) with e | s'
          · simp [getSnapshot, hraw, hset]
          · have hget := hgs s key (stringify (some d)) s' hset
            have hraw2 : rawRead L key (some s') = some (stringify (some d)) := by
              simp [rawRead, hget, goodTry]
            simp [getSnapshot, hraw, hset, hraw2]
    · simp [getSnapshot, hraw]

lemma getSnapshot_raw {σ α : Type} (L : StorageLike σ)
    (key : String) (defaultValue : Option α) (storeDefault : Bool)
    (parse : String → Except Unit (Option α)) (stringify : Option α → String)
    (storage : Option σ) (item : StorageItem α) :
    (getSnapshot L key defaultValue storeDefault parse stringify storage item).raw =
      rawRead L key storage := by
  unfold getSnapshot
  cases storage with
  | none => simp [rawRead]
  | some s =>
    dsimp only
    split
    · split <;> simp
    · simp

lemma getSnapshot_seed_iff {σ α : Type} (L : StorageLike σ)
    (key : String) (defaultValue : Option α) (storeDefault : Bool)
    (parse : String → Except Unit (Option α)) (stringify : Option α → String)
    (storage : Option σ) (item : StorageItem α) :
    (getSnapshot L key defaultValue storeDefault parse stringify storage item).seedAttempt = true ↔
      (storeDefault = true ∧ rawRead L key storage = none ∧ storage ≠ none ∧
        defaultValue ≠ none) := by
  cases storage with
  | none => simp [getSnapshot, rawRead]
  | some s =>
    rcases hraw : rawRead L key (some s) with _ | r
    · cases hsd : storeDefault with
      | false => simp [getSnapshot, hraw, hsd]
      | true =>
        rcases hdv : defaultValue with _ | d
        · simp [getSnapshot, hraw, hsd, hdv]
        · rcases hset : L.setItem s key (stringify (some d)) with e | s' <;>
            simp [getSnapshot, hraw, hsd, hdv, hset]
    · simp [getSnapshot, hraw]

lemma getSnapshot_seed_once {σ α : Type} (L : StorageLike σ)
    (hgs : ∀ m k v m', L.setItem m k v = .ok m' → L.getItem m' k = .ok (some v))
    (key : String) (defaultValue : Option α) (storeDefault : Bool)
    (parse : String → Except Unit (Option α)) (stringify : Option α → String)
    (storage : Option σ) (item : StorageItem α) :
    (getSnapshot L key defaultValue storeDefault parse stringify storage item).seedStored = true →
    (getSnapshot L key defaultValue storeDefault parse stringify
      (getSnapshot L key defaultValue storeDefault parse stringify storage item).store
      (getSnapshot L key defaultValue storeDefault parse stringify storage item).item).seedAttempt
      = false := by
  cases storage with
  | none => simp [getSnapshot, rawRead]
  | some s =>
    rcases hraw : rawRead L key (some s) with _ | r
    · cases hsd : storeDefault with
      | false => simp [getSnapshot, hraw, hsd]
      | true =>
        rcases hdv : defaultValue with _ | d
        · simp [getSnapshot, hraw, hsd, hdv]
        · rcases hset : L.setItem s key (stringify (some d)) with e | s'
          · simp [getSnapshot, hraw, hsd, hdv, hset]
          · have hget := hgs s key (stringify (some d)) s' hset
            have hraw2 : rawRead L key (some s') = some (stringify (some d)) := by
              simp [rawRead, hget, goodTry]
            simp [getSnapshot, hraw, hsd, hdv, hset, hraw2]
    · simp [getSnapshot, hraw]

lemma getSnapshot_same_raw {σ α : Type} (L : StorageLike σ)
    (key : String) (defaultValue : Option α) (storeDefault : Bool)
    (parse : String → Except Unit (Option α)) (stringify : Option α → String)
    (storage : Option σ) (item : StorageItem α)
    (hinv : CellInv parse defaultValue item)
    (hsame : rawRead L key storage = item.string) :
    (getSnapshot L key defaultValue storeDefault parse stringify storage item).decodeCalls = 0 ∧
    (getSnapshot L key defaultValue storeDefault parse stringify storage item).value
      = item.parsed := by
  cases storage with
  | none =>
    have hstr : item.string = none := by
      simpa [rawRead] using hsame.symm
    simp [getSnapshot, rawRead, hstr]
  | some s =>
    rcases hraw : rawRead L key (some s) with _ | r
    · have hstr : item.string = none := by rw [← hsame, hraw]
      have hpd : item.parsed = defaultValue := by
        unfold CellInv at hinv; rw [hstr] at hinv; exact hinv
      cases hsd : storeDefault with
      | false => simp [getSnapshot, hraw, hstr, hsd]
      | true =>
        rcases hdv : defaultValue with _ | d
        · simp [getSnapshot, hraw, hstr, hsd, hdv]
        · rcases hset : L.setItem s key (stringify (some d)) with e | s' <;>
            simp [getSnapshot, hraw, hstr, hsd, hdv, hset, hpd]
    · have hstr : item.string = some r := by rw [← hsame, hraw]
      simp [getSnapshot, hraw, hstr]

lemma cellInv_initial {α : Type} (parse : String → Except Unit (Option α))
    (defaultValue : Option α) : CellInv parse defaultValue (initialStorageItem defaultValue) := by
  simp [CellInv, initialStorageItem]

lemma cellInv_preserved {σ α : Type} (L : StorageLike σ)
    (key : String) (defaultValue : Option α) (storeDefault : Bool)
    (parse : String → Except Unit (Option α)) (stringify : Option α → String)
    (storage : Option σ) (item : StorageItem α)
    (hinv : CellInv parse defaultValue item)
    (hseed : storeDefault = true → parse (stringify defaultValue) = .ok defaultValue) :
    CellInv parse defaultValue
      (getSnapshot L key defaultValue storeDefault parse stringify storage item).item := by
  cases storage with
  | none =>
    rcases hstr : item.string with _ | r
    · have hp : item.parsed = defaultValue := by
        unfold CellInv at hinv; rw [hstr] at hinv; exact hinv
      simp [getSnapshot, rawRead, hstr, hp, CellInv]
    · simp [getSnapshot, rawRead, hstr, CellInv]
  | some s =>
    rcases hraw : rawRead L key (some s) with _ | r
    · cases hsd : storeDefault with
      | false =>
        rcases hstr : item.string with _ | r
        · have hp : item.parsed = defaultValue := by
            unfold CellInv at hinv; rw [hstr] at hinv; exact hinv
          simp [getSnapshot, hraw, hstr, hp, hsd, CellInv]
        · simp [getSnapshot, hraw, hstr, hsd, CellInv]
      | true =>
        have hrt := hseed hsd
        rcases hdv : defaultValue with _ | d
        · rcases hstr : item.string with _ | r
          · have hp : item.parsed = none := by
              unfold CellInv at hinv; rw [hstr] at hinv; rw [← hdv]; exact hinv
            simp [getSnapshot, hraw, hstr, hp, hsd, hdv, CellInv]
          · simp [getSnapshot, hraw, hstr, hsd, hdv, CellInv]
        · rcases hset : L.setItem s key (stringify (some d)) with e | s'
          · rcases hstr : item.string with _ | r
            · have hp : item.parsed = some d := by
                unfold CellInv at hinv; rw [hstr] at hinv; rw [← hdv]; exact hinv
              simp [getSnapshot, hraw, hstr, hp, hsd, hdv, hset, CellInv]
            · simp [getSnapshot, hraw, hstr, hsd, hdv, hset, CellInv]
          · rw [hdv] at hrt
            simp [getSnapshot, hraw, hsd, hdv, hset, CellInv, hrt]
    · rcases hstr : item.string with _ | r'
      · simp only [getSnapshot, hraw, hstr]
        rcases hp : parse r with e | p <;> simp [hp, CellInv, hraw, hstr]
      · by_cases heq : r = r'
        · subst heq
          have hp : item.parsed = (match parse r with | .ok p => p | .error _ => defaultValue) := by
            unfold CellInv at hinv; rw [hstr] at hinv; exact hinv
          simp [getSnapshot, hraw, hstr, hp, CellInv]
        · simp only [getSnapshot, hraw, hstr]
          rcases hp : parse r with e | p <;> simp [hp, CellInv, hraw, hstr, heq]

lemma msGet_msSet (m : MemMap) (k v : String) : msGet (msSet m k v) k = some v := by
  induction m with
  | nil => simp [msSet, msGet]
  | cons p rest ih =>
    obtain ⟨k', v'⟩ := p
    by_cases hk : k' = k
    · simp [msSet, msGet, hk]
    · simp [msSet, msGet, hk, ih]

lemma msGet_msDelete (m : MemMap) (k : String) : msGet (msDelete m k) k = none := by
  induction m with
  | nil => simp [msDelete, msGet]
  | cons p rest ih =>
    obtain ⟨k', v'⟩ := p
    by_cases hk : k' = k
    · simp [msDelete, hk, ih]
    · simp [msDelete, msGet, hk, ih]

lemma memGetItem_set (m : MemMap) (k v : String) : memGetItem (memSetItem m k v) k = some v := by
  simp [memGetItem, memSetItem, msGet_msSet]

lemma memGetItem_delete (m : MemMap) (k : String) : memGetItem (memRemoveItem m k) k = none := by
  simp [memGetItem, memRemoveItem, msGet_msDelete]

lemma memStorageLike_get_set : ∀ (m : MemMap) (k v : String) (m' : MemMap),
    memStorageLike.setItem m k v = .ok m' → memStorageLike.getItem m' k = .ok (some v) := by
  intro m k v m' h
  simp only [memStorageLike, Except.ok.injEq] at h
  subst h
  simp [memStorageLike, memGetItem_set]

lemma getSnapshot_value_some {σ α : Type} (L : StorageLike σ)
    (key : String) (defaultValue : Option α) (storeDefault : Bool)
    (parse : String → Except Unit (Option α)) (stringify : Option α → String)
    (s : σ) (item : StorageItem α) (r : String)
    (hraw : rawRead L key (some s) = some r)
    (hinv : CellInv parse defaultValue item) :
    (getSnapshot L key defaultValue storeDefault parse stringify (some s) item).value =
      (match parse r with | .ok p => p | .error _ => defaultValue) ∧
    (getSnapshot L key defaultValue storeDefault parse stringify (some s) item).store = some s ∧
    (getSnapshot L key defaultValue storeDefault parse stringify (some s) item).seedAttempt
      = false := by
  by_cases heq : some r = item.string
  · have heq' : item.string = some r := heq.symm
    have hp : item.parsed = (match parse r with | .ok p => p | .error _ => defaultValue) := by
      unfold CellInv at hinv
      rw [heq'] at hinv
      exact hinv
    simp [getSnapshot, hraw, heq', hp]
  · simp only [getSnapshot, hraw]
    rcases hp : parse r with e | p <;> simp [getSnapshot, hraw, heq, hp]

lemma getSnapshot_nostorage {σ α : Type} (L : StorageLike σ)
    (key : String) (defaultValue : Option α) (storeDefault : Bool)
    (parse : String → Except Unit (Option α)) (stringify : Option α → String)
    (item : StorageItem α) (hinv : CellInv parse defaultValue item) :
    (getSnapshot L key defaultValue storeDefault parse stringify none item).value = defaultValue ∧
    (getSnapshot L key defaultValue storeDefault parse stringify none item).store = none := by
  rcases hstr : item.string with _ | r
  · have hp : item.parsed = defaultValue := by
      unfold CellInv at hinv
      rw [hstr] at hinv
      exact hinv
    simp [getSnapshot, rawRead, hstr, hp]
  · simp [getSnapshot, rawRead, hstr]

lemma getSnapshot_throwing {σ α : Type} (s : σ)
    (key : String) (defaultValue : Option α) (storeDefault : Bool)
    (parse : String → Except Unit (Option α)) (stringify : Option α → String)
    (item : StorageItem α) (hinv : CellInv parse defaultValue item) :
    (getSnapshot (throwingBackend σ) key defaultValue storeDefault parse stringify
      (some s) item).value = defaultValue ∧
    (getSnapshot (throwingBackend σ) key defaultValue storeDefault parse stringify
      (some s) item).store = some s := by
  have hraw : rawRead (throwingBackend σ) key (some s) = none := by
    simp [rawRead, throwingBackend, goodTry]
  have hp : (if (none : Option String) ≠ item.string then defaultValue else item.parsed)
      = defaultValue := by
    rcases hstr : item.string with _ | r
    · have : item.parsed = defaultValue := by
        unfold CellInv at hinv
        rw [hstr] at hinv
        exact hinv
      simp [hstr, this]
    · simp [hstr]
  rcases hstr : item.string with _ | r
  · have hpd : item.parsed = defaultValue := by
      unfold CellInv at hinv
      rw [hstr] at hinv
      exact hinv
    cases hsd : storeDefault with
    | false => simp [getSnapshot, hraw, hstr, hpd, hsd]
    | true =>
      rcases hdv : defaultValue with _ | d
      · simp [getSnapshot, hraw, hstr, hpd, hsd, hdv]
      · have hset : (throwingBackend σ).setItem s key (stringify (some d)) = .error () := rfl
        simp [getSnapshot, hraw, hstr, hpd, hsd, hdv, hset]
  · cases hsd : storeDefault with
    | false => simp [getSnapshot, hraw, hstr, hsd]
    | true =>
      rcases hdv : defaultValue with _ | d
      · simp [getSnapshot, hraw, hstr, hsd, hdv]
      · have hset : (throwingBackend σ).setItem s key (stringify (some d)) = .error () := rfl
        simp [getSnapshot, hraw, hstr, hsd, hdv, hset]

lemma triggerCallbacks_notifies {α : Type} (key : String) (hooks : List (Hook α)) :
    ∀ h ∈ triggerCallbacks key hooks, h.key = key → h.notified = true := by
  intro h hmem hkey
  simp only [triggerCallbacks, List.mem_map] at hmem
  obtain ⟨g, _, rfl⟩ := hmem
  by_cases hg : g.key = key
  · simp [hg]
  · simp only [hg, if_false] at hkey ⊢

/-! ### Claim theorems -/

/-- C7: for the default codec — `JSON.stringify` composed with the
`setItem` coercion as encode, the repository's `parseJSON` as decode —
decoding the encoding of any JSON-representable value returns the value
itself, and encoding the value `undefined` produces the raw string
`"undefined"`, which `parseJSON` maps back to the value `undefined`, not to
the string itself. -/
theorem spec_default_codec_roundtrip (v : JVal) (h : noUndef v = true ∨ v = .jundef) :
    parseJSON (encodeDefault v) = .ok v := by
  rcases h with h | rfl
  · unfold encodeDefault
    rw [jsonStringifyTop_eq v h]
    show parseJSON (String.mk (serVal v)) = Except.ok v
    unfold parseJSON
    rw [if_neg (encode_ne_undefined v)]
    exact jsonParse_serVal v h
  · rfl

theorem spec_default_codec_roundtrip_witness :
    parseJSON (encodeDefault (.jarr [.jnum 1, .jstr "a b", .jobj [("k", .jnull)], .jnum (-42)]))
      = .ok (.jarr [.jnum 1, .jstr "a b", .jobj [("k", .jnull)], .jnum (-42)]) ∧
    parseJSON (encodeDefault .jundef) = .ok .jundef :=
  ⟨spec_default_codec_roundtrip _ (Or.inl rfl), spec_default_codec_roundtrip _ (Or.inr rfl)⟩

/-- C1: writing a value through `setState` reaches the backend and notifies
the bus for the key; afterwards the snapshot computation of any coherent
hook instance of the same key and backend, including a freshly mounted one,
returns the written value, provided the backend accepted the write and the
codec round-trips the value. -/
theorem spec_write_then_observe_converges {σ α : Type} (L : StorageLike σ)
    (hgs : ∀ m k v m', L.setItem m k v = .ok m' → L.getItem m' k = .ok (some v))
    (key : String) (v defaultValue : Option α) (storeDefault : Bool)
    (parse : String → Except Unit (Option α)) (stringify : Option α → String)
    (s s' : σ) (hset : L.setItem s key (stringify v) = .ok s')
    (hrt : parse (stringify v) = .ok v)
    (writerItem item : StorageItem α) (hinv : CellInv parse defaultValue item)
    (hooks : List (Hook α)) :
    (setState L key stringify (some s) writerItem (.value v)).store = some s' ∧
    (setState L key stringify (some s) writerItem (.value v)).triggeredKey = some key ∧
    (getSnapshot L key defaultValue storeDefault parse stringify (some s') item).value = v ∧
    (getSnapshot L key defaultValue storeDefault parse stringify (some s')
      (initialStorageItem defaultValue)).value = v ∧
    ∀ h ∈ triggerCallbacks key hooks, h.key = key → h.notified = true := by
  have hraw : rawRead L key (some s') = some (stringify v) := by
    simp [rawRead, hgs s key (stringify v) s' hset, goodTry]
  have hval : ∀ it, CellInv parse defaultValue it →
      (getSnapshot L key defaultValue storeDefault parse stringify (some s') it).value = v := by
    intro it hit
    have h1 := (getSnapshot_value_some L key defaultValue storeDefault parse stringify s' it
      (stringify v) hraw hit).1
    rw [h1]
    simp [hrt]
  refine ⟨?_, ?_, hval item hinv, hval _ (cellInv_initial parse defaultValue),
    triggerCallbacks_notifies key hooks⟩
  · simp [setState, hset]
  · simp [setState]

/-- C1 witness: the memory-storage backend with the decimal codec, key
`"k"`, value `3`. -/
theorem spec_write_then_observe_converges_witness :
    (setState memStorageLike "k" natStringify (some []) (initialStorageItem (some 0))
      (.value (some 3))).store = some [("k", "3")] ∧
    (setState memStorageLike "k" natStringify (some []) (initialStorageItem (some 0))
      (.value (some 3))).triggeredKey = some "k" ∧
    (getSnapshot memStorageLike "k" (some 0) false natParse natStringify (some [("k", "3")])
      (initialStorageItem (some 0))).value = some 3 ∧
    (getSnapshot memStorageLike "k" (some 0) false natParse natStringify (some [("k", "3")])
      (initialStorageItem (some 0))).value = some 3 ∧
    ∀ h ∈ triggerCallbacks "k" [⟨"k", initialStorageItem (some (0 : Nat)), false⟩],
      h.key = "k" → h.notified = true :=
  spec_write_then_observe_converges memStorageLike memStorageLike_get_set "k" (some 3) (some 0)
    false natParse natStringify [] [("k", "3")] rfl rfl
    (initialStorageItem (some 0)) (initialStorageItem (some 0))
    (cellInv_initial natParse (some 0)) [⟨"k", initialStorageItem (some 0), false⟩]

/-- C2: against a backend whose every call throws, the engine's operations
are total and neutral: the snapshot returns the default value, write and
remove leave the backend state untouched, and a snapshot computed after a
failed `setState` still returns the default value, not the attempted one.
Totality of these Lean functions mirrors the fact that `goodTry` confines
every backend exception. -/
theorem spec_throwing_backend_neutralized {σ α : Type} (s : σ)
    (key : String) (defaultValue : Option α) (storeDefault : Bool)
    (parse : String → Except Unit (Option α)) (stringify : Option α → String)
    (item : StorageItem α) (hinv : CellInv parse defaultValue item)
    (action : SetStateAction α) :
    (getSnapshot (throwingBackend σ) key defaultValue storeDefault parse stringify
      (some s) item).value = defaultValue ∧
    (getSnapshot (throwingBackend σ) key defaultValue storeDefault parse stringify
      (some s) item).store = some s ∧
    (setState (throwingBackend σ) key stringify (some s) item action).store = some s ∧
    (removeItem (throwingBackend σ) key (some s)).store = some s ∧
    (getSnapshot (throwingBackend σ) key defaultValue storeDefault parse stringify
      (setState (throwingBackend σ) key stringify (some s) item action).store item).value
      = defaultValue := by
  have h1 := getSnapshot_throwing s key defaultValue storeDefault parse stringify item hinv
  have hsetst : (setState (throwingBackend σ) key stringify (some s) item action).store
      = some s := by
    simp [setState, throwingBackend]
  refine ⟨h1.1, h1.2, hsetst, ?_, ?_⟩
  · simp [removeItem, throwingBackend]
  · rw [hsetst]
    exact h1.1

/-- C2 witness: the throwing backend over the memory-map state type. -/
theorem spec_throwing_backend_neutralized_witness :
    (getSnapshot (throwingBackend MemMap) "k" (some 7) true natParse natStringify
      (some []) (initialStorageItem (some 7))).value = some 7 ∧
    (getSnapshot (throwingBackend MemMap) "k" (some 7) true natParse natStringify
      (some []) (initialStorageItem (some 7))).store = some [] ∧
    (setState (throwingBackend MemMap) "k" natStringify (some [])
      (initialStorageItem (some 7)) (.value (some 3))).store = some [] ∧
    (removeItem (throwingBackend MemMap) "k" (some [])).store = some [] ∧
    (getSnapshot (throwingBackend MemMap) "k" (some 7) true natParse natStringify
      (setState (throwingBackend MemMap) "k" natStringify (some [])
        (initialStorageItem (some 7)) (.value (some 3))).store
      (initialStorageItem (some 7))).value = some 7 :=
  spec_throwing_backend_neutralized [] "k" (some 7) true natParse natStringify
    (initialStorageItem (some 7)) (cellInv_initial natParse (some 7)) (.value (some 3))

/-- C3: two consecutive snapshot computations over an unchanged backend read
the same raw string, so the second invokes the decoder zero times and
returns the cached decoded value; and after every snapshot computation the
cell's raw-string field equals the raw string just read from the backend,
or, when default-seeding stored the default, the string just written. -/
theorem spec_cache_cell_stability {σ α : Type} (L : StorageLike σ)
    (hgs : ∀ m k v m', L.setItem m k v = .ok m' → L.getItem m' k = .ok (some v))
    (key : String) (defaultValue : Option α) (storeDefault : Bool)
    (parse : String → Except Unit (Option α)) (stringify : Option α → String)
    (storage : Option σ) (item : StorageItem α) :
    ((getSnapshot L key defaultValue storeDefault parse stringify
        (getSnapshot L key defaultValue storeDefault parse stringify storage item).store
        (getSnapshot L key defaultValue storeDefault parse stringify storage item).item).decodeCalls
        = 0 ∧
      (getSnapshot L key defaultValue storeDefault parse stringify
        (getSnapshot L key defaultValue storeDefault parse stringify storage item).store
        (getSnapshot L key defaultValue storeDefault parse stringify storage item).item).value
        = (getSnapshot L key defaultValue storeDefault parse stringify storage item).value) ∧
    (getSnapshot L key defaultValue storeDefault parse stringify storage item).item.string =
      (if (getSnapshot L key defaultValue storeDefault parse stringify storage
            item).seedStored = true
        then some (stringify defaultValue)
        else (getSnapshot L key defaultValue storeDefault parse stringify storage item).raw) ∧
    (CellInv parse defaultValue item → rawRead L key storage = item.string →
      (getSnapshot L key defaultValue storeDefault parse stringify storage item).decodeCalls
        = 0 ∧
      (getSnapshot L key defaultValue storeDefault parse stringify storage item).value
        = item.parsed) :=
  ⟨getSnapshot_stable L hgs key defaultValue storeDefault parse stringify storage item,
    getSnapshot_string_spec L key defaultValue storeDefault parse stringify storage item,
    fun hinv hsame => getSnapshot_same_raw L key defaultValue storeDefault parse stringify
      storage item hinv hsame⟩

/-- C3 witness: the memory backend seeded with a raw value for the key. -/
theorem spec_cache_cell_stability_witness :
    ((getSnapshot memStorageLike "k" (some 0) false natParse natStringify
        (getSnapshot memStorageLike "k" (some 0) false natParse natStringify
          (some [("k", "3")]) (initialStorageItem (some 0))).store
        (getSnapshot memStorageLike "k" (some 0) false natParse natStringify
          (some [("k", "3")]) (initialStorageItem (some 0))).item).decodeCalls = 0 ∧
      (getSnapshot memStorageLike "k" (some 0) false natParse natStringify
        (getSnapshot memStorageLike "k" (some 0) false natParse natStringify
          (some [("k", "3")]) (initialStorageItem (some 0))).store
        (getSnapshot memStorageLike "k" (some 0) false natParse natStringify
          (some [("k", "3")]) (initialStorageItem (some 0))).item).value
        = (getSnapshot memStorageLike "k" (some 0) false natParse natStringify
            (some [("k", "3")]) (initialStorageItem (some 0))).value) ∧
    (getSnapshot memStorageLike "k" (some 0) false natParse natStringify
      (some [("k", "3")]) (initialStorageItem (some 0))).item.string =
      (if (getSnapshot memStorageLike "k" (some 0) false natParse natStringify
            (some [("k", "3")]) (initialStorageItem (some 0))).seedStored = true
        then some (natStringify (some 0))
        else (getSnapshot memStorageLike "k" (some 0) false natParse natStringify
          (some [("k", "3")]) (initialStorageItem (some 0))).raw) ∧
    (CellInv natParse (some 0) (initialStorageItem (some 0)) →
      rawRead memStorageLike "k" (some [("k", "3")])
        = (initialStorageItem (some (0 : Nat))).string →
      (getSnapshot memStorageLike "k" (some 0) false natParse natStringify
        (some [("k", "3")]) (initialStorageItem (some 0))).decodeCalls = 0 ∧
      (getSnapshot memStorageLike "k" (some 0) false natParse natStringify
        (some [("k", "3")]) (initialStorageItem (some 0))).value
        = (initialStorageItem (some (0 : Nat))).parsed) :=
  spec_cache_cell_stability memStorageLike memStorageLike_get_set "k" (some 0) false
    natParse natStringify (some [("k", "3")]) (initialStorageItem (some 0))

/-- C4 counterexample: with no backend handle, the remove path publishes no
notification at all — `triggerCallbacks` is never reached — contradicting
the claim that removal without a handle is a pure notification. -/
theorem spec_remove_without_handle_counterexample :
    (removeItem memStorageLike "k" (none : Option MemMap)).triggeredKey ≠ some "k" := by
  simp [removeItem]

/-- C4 as amended: with a backend handle, remove goes through the failure
boundary and then notifies the bus for the key; with no handle the call is a
complete no-op — no I/O and no notification — and every snapshot
computation without a handle still returns the default value because the raw
read is `null`. -/
theorem spec_remove_path_amended {σ α : Type} (L : StorageLike σ) (key : String)
    (s s' : σ) (hrem : L.removeItem s key = .ok s')
    (defaultValue : Option α) (storeDefault : Bool)
    (parse : String → Except Unit (Option α)) (stringify : Option α → String)
    (item : StorageItem α) (hinv : CellInv parse defaultValue item) :
    (removeItem L key (some s)).triggeredKey = some key ∧
    (removeItem L key (some s)).store = some s' ∧
    (removeItem L key (none : Option σ)).triggeredKey = none ∧
    (removeItem L key (none : Option σ)).store = none ∧
    (getSnapshot L key defaultValue storeDefault parse stringify none item).value
      = defaultValue := by
  refine ⟨?_, ?_, ?_, ?_, (getSnapshot_nostorage L key defaultValue storeDefault parse
    stringify item hinv).1⟩
  · simp [removeItem, hrem]
  · simp [removeItem, hrem]
  · simp [removeItem]
  · simp [removeItem]

/-- C4 witness: removing key `"k"` from a memory backend holding it. -/
theorem spec_remove_path_amended_witness :
    (removeItem memStorageLike "k" (some [("k", "3")])).triggeredKey = some "k" ∧
    (removeItem memStorageLike "k" (some [("k", "3")])).store = some [] ∧
    (removeItem memStorageLike "k" (none : Option MemMap)).triggeredKey = none ∧
    (removeItem memStorageLike "k" (none : Option MemMap)).store = none ∧
    (getSnapshot memStorageLike "k" (some 0) false natParse natStringify none
      (initialStorageItem (some 0))).value = some 0 :=
  spec_remove_path_amended memStorageLike "k" [("k", "3")] [] rfl (some 0) false
    natParse natStringify (initialStorageItem (some 0)) (cellInv_initial natParse (some 0))

/-- C5: the default-seeding write is attempted exactly when `storeDefault`
is set, the raw string read was `null`, a backend handle exists and the
default value is not `undefined`; and once a seeding write succeeds, the
next snapshot computation does not attempt the seeding write again. -/
theorem spec_default_seeding_guard {σ α : Type} (L : StorageLike σ)
    (hgs : ∀ m k v m', L.setItem m k v = .ok m' → L.getItem m' k = .ok (some v))
    (key : String) (defaultValue : Option α) (storeDefault : Bool)
    (parse : String → Except Unit (Option α)) (stringify : Option α → String)
    (storage : Option σ) (item : StorageItem α) :
    ((getSnapshot L key defaultValue storeDefault parse stringify storage item).seedAttempt
        = true ↔
      (storeDefault = true ∧
        (getSnapshot L key defaultValue storeDefault parse stringify storage item).raw = none ∧
        storage ≠ none ∧ defaultValue ≠ none)) ∧
    ((getSnapshot L key defaultValue storeDefault parse stringify storage item).seedStored
        = true →
      (getSnapshot L key defaultValue storeDefault parse stringify
        (getSnapshot L key defaultValue storeDefault parse stringify storage item).store
        (getSnapshot L key defaultValue storeDefault parse stringify storage item).item).seedAttempt
        = false) := by
  constructor
  · rw [getSnapshot_raw]
    exact getSnapshot_seed_iff L key defaultValue storeDefault parse stringify storage item
  · exact getSnapshot_seed_once L hgs key defaultValue storeDefault parse stringify storage item

/-- C5 witness: seeding on an empty memory backend with default `7`. -/
theorem spec_default_seeding_guard_witness :
    ((getSnapshot memStorageLike "k" (some 7) true natParse natStringify (some [])
        (initialStorageItem (some 7))).seedAttempt = true ↔
      (true = true ∧
        (getSnapshot memStorageLike "k" (some 7) true natParse natStringify (some [])
          (initialStorageItem (some 7))).raw = none ∧
        (some [] : Option MemMap) ≠ none ∧ (some 7 : Option Nat) ≠ none)) ∧
    ((getSnapshot memStorageLike "k" (some 7) true natParse natStringify (some [])
        (initialStorageItem (some 7))).seedStored = true →
      (getSnapshot memStorageLike "k" (some 7) true natParse natStringify
        (getSnapshot memStorageLike "k" (some 7) true natParse natStringify (some [])
          (initialStorageItem (some 7))).store
        (getSnapshot memStorageLike "k" (some 7) true natParse natStringify (some [])
          (initialStorageItem (some 7))).item).seedAttempt = false) :=
  spec_default_seeding_guard memStorageLike memStorageLike_get_set "k" (some 7) true
    natParse natStringify (some []) (initialStorageItem (some 7))

/-- C6: when the backend holds a non-null raw string on which the decoder
throws, the snapshot computation returns the default value, issues no
backend write (the state is unchanged and the seeding branch does not run),
and the malformed raw string is still readable afterwards. -/
theorem spec_decode_failure_falls_back {σ α : Type} (L : StorageLike σ)
    (key : String) (defaultValue : Option α) (storeDefault : Bool)
    (parse : String → Except Unit (Option α)) (stringify : Option α → String)
    (s : σ) (item : StorageItem α) (r : String)
    (hget : L.getItem s key = .ok (some r)) (hdec : parse r = .error ())
    (hinv : CellInv parse defaultValue item) :
    (getSnapshot L key defaultValue storeDefault parse stringify (some s) item).value
      = defaultValue ∧
    (getSnapshot L key defaultValue storeDefault parse stringify (some s) item).store
      = some s ∧
    (getSnapshot L key defaultValue storeDefault parse stringify (some s) item).seedAttempt
      = false ∧
    rawRead L key
      (getSnapshot L key defaultValue storeDefault parse stringify (some s) item).store
      = some r := by
  have hraw : rawRead L key (some s) = some r := by
    simp [rawRead, hget, goodTry]
  obtain ⟨h1, h2, h3⟩ := getSnapshot_value_some L key defaultValue storeDefault parse
    stringify s item r hraw hinv
  refine ⟨?_, h2, h3, ?_⟩
  · rw [h1, hdec]
  · rw [h2, hraw]

/-- C6 witness: the memory backend holding a raw string the decimal codec
rejects. -/
theorem spec_decode_failure_falls_back_witness :
    (getSnapshot memStorageLike "k" (some 7) true natParse natStringify
      (some [("k", "oops")]) (initialStorageItem (some 7))).value = some 7 ∧
    (getSnapshot memStorageLike "k" (some 7) true natParse natStringify
      (some [("k", "oops")]) (initialStorageItem (some 7))).store = some [("k", "oops")] ∧
    (getSnapshot memStorageLike "k" (some 7) true natParse natStringify
      (some [("k", "oops")]) (initialStorageItem (some 7))).seedAttempt = false ∧
    rawRead memStorageLike "k"
      (getSnapshot memStorageLike "k" (some 7) true natParse natStringify
        (some [("k", "oops")]) (initialStorageItem (some 7))).store = some "oops" :=
  spec_decode_failure_falls_back memStorageLike "k" (some 7) true natParse natStringify
    [("k", "oops")] (initialStorageItem (some 7)) "oops" rfl rfl
    (cellInv_initial natParse (some 7))

/-- C8: the cross-context listener republishes to the bus exactly when the
event's key equals the observed key and the event's storage area is
reference-equal to the backend instance currently configured; otherwise the
delivered event leaves every subscribed hook untouched. -/
theorem spec_cross_context_filter {α : Type} (key : String) (storageId : Option Nat)
    (e : StorageEventModel) (hooks : List (Hook α)) :
    (onStorage key storageId e = true ↔
      (e.key = some key ∧ ∃ id, e.storageArea = some id ∧ storageId = some id)) ∧
    (onStorage key storageId e = false → handleStorageEvent key storageId e hooks = hooks) ∧
    (onStorage key storageId e = true →
      handleStorageEvent key storageId e hooks = triggerCallbacks key hooks) := by
  refine ⟨?_, ?_, ?_⟩
  · rcases e with ⟨ek, ea⟩
    rcases ea with _ | a <;> rcases storageId with _ | b
    · simp [onStorage, jsStrictEq, areaOfEvent, refOfStorage]
    · simp [onStorage, jsStrictEq, areaOfEvent, refOfStorage]
    · simp [onStorage, jsStrictEq, areaOfEvent, refOfStorage]
    · by_cases hab : a = b
      · subst hab
        simp [onStorage, jsStrictEq, areaOfEvent, refOfStorage]
      · simp [onStorage, jsStrictEq, areaOfEvent, refOfStorage, hab, Ne.symm hab]
  · intro h
    simp [handleStorageEvent, h]
  · intro h
    simp [handleStorageEvent, h]

/-- C8 witness: a matching event triggers; a same-key event from a different
backend instance does not and leaves the hooks unchanged. -/
theorem spec_cross_context_filter_witness :
    (onStorage "k" (some 1) ⟨some "k", some 1⟩ = true ↔
      ((some "k" : Option String) = some "k" ∧
        ∃ id, (some 1 : Option Nat) = some id ∧ (some 1 : Option Nat) = some id)) ∧
    (onStorage "k" (some 1) ⟨some "k", some 1⟩ = false →
      handleStorageEvent "k" (some 1) ⟨some "k", some 1⟩
        [(⟨"k", initialStorageItem (some (0 : Nat)), false⟩ : Hook Nat)] =
        [⟨"k", initialStorageItem (some 0), false⟩]) ∧
    (onStorage "k" (some 1) ⟨some "k", some 1⟩ = true →
      handleStorageEvent "k" (some 1) ⟨some "k", some 1⟩
        [(⟨"k", initialStorageItem (some (0 : Nat)), false⟩ : Hook Nat)] =
        triggerCallbacks "k" [⟨"k", initialStorageItem (some 0), false⟩]) :=
  spec_cross_context_filter "k" (some 1) ⟨some "k", some 1⟩
    [⟨"k", initialStorageItem (some 0), false⟩]

/-- C9: the memory fallback store returns `null` for a key never set or last
removed, returns exactly the stored string after a write, and — the state
being the single shared map — a write by one consumer is observed verbatim
by every other consumer reading the same state. -/
theorem spec_memory_storage_contract (k : String) (m : MemMap) (s : String) :
    memGetItem ([] : MemMap) k = none ∧
    memGetItem (memSetItem m k s) k = some s ∧
    memGetItem (memRemoveItem m k) k = none :=
  ⟨by simp [memGetItem, msGet], memGetItem_set m k s, memGetItem_delete m k⟩

/-- C10: backend resolution distinguishes an omitted `storage` option from
an explicit `undefined`: omitted (or absent options) selects `localStorage`,
with the memory fallback only when the access throws; an explicit
`undefined` never selects a durable backend and yields the memory fallback
unless `memoryFallback` is `false`, in which case no backend at all. -/
theorem spec_backend_resolution {β : Type} (env : EnvModel β) (mem : β)
    (o : OptionsModel β) (ls : β) :
    (env.localStorage = .ok ls → resolvedStorage env mem none = some ls) ∧
    (env.localStorage = .ok ls → o.storageProp = none →
      resolvedStorage env mem (some o) = some ls) ∧
    (env.localStorage = .error () → resolvedStorage env mem none = some mem) ∧
    (env.localStorage = .error () → o.storageProp = none →
      o.memoryFallback ≠ some false → resolvedStorage env mem (some o) = some mem) ∧
    (env.localStorage = .error () → o.storageProp = none →
      o.memoryFallback = some false → resolvedStorage env mem (some o) = none) ∧
    (o.storageProp = some .undef → o.memoryFallback ≠ some false →
      resolvedStorage env mem (some o) = some mem) ∧
    (o.storageProp = some .undef → o.memoryFallback = some false →
      resolvedStorage env mem (some o) = none) := by
  refine ⟨?_, ?_, ?_, ?_, ?_, ?_, ?_⟩
  · intro h
    simp [resolvedStorage, storageOption, storageObj, goodTry, h]
  · intro h hsp
    simp [resolvedStorage, storageOption, storageObj, goodTry, h, hsp]
  · intro h
    simp [resolvedStorage, storageOption, storageObj, goodTry, h]
  · intro h hsp hmf
    simp [resolvedStorage, storageOption, storageObj, goodTry, h, hsp, hmf]
  · intro h hsp hmf
    simp [resolvedStorage, storageOption, storageObj, goodTry, h, hsp, hmf]
  · intro hsp hmf
    simp [resolvedStorage, storageOption, storageObj, goodTry, hsp, hmf]
  · intro hsp hmf
    simp [resolvedStorage, storageOption, storageObj, goodTry, hsp, hmf]

/-- C10 witness: a working `localStorage` identified by `10`, and options
carrying an explicit `undefined` storage with and without the memory
fallback disabled. -/
theorem spec_backend_resolution_witness :
    ((Except.ok 10 : Except Unit Nat) = .ok 10 →
      resolvedStorage ⟨.ok 10, .ok 11⟩ 99 none = some 10) ∧
    ((Except.ok 10 : Except Unit Nat) = .ok 10 →
      (⟨some .undef, some false⟩ : OptionsModel Nat).storageProp = none →
      resolvedStorage ⟨.ok 10, .ok 11⟩ 99 (some ⟨some .undef, some false⟩) = some 10) ∧
    ((Except.ok 10 : Except Unit Nat) = .error () →
      resolvedStorage ⟨.ok 10, .ok 11⟩ 99 none = some 99) ∧
    ((Except.ok 10 : Except Unit Nat) = .error () →
      (⟨some .undef, some false⟩ : OptionsModel Nat).storageProp = none →
      (⟨some .undef, some false⟩ : OptionsModel Nat).memoryFallback ≠ some false →
      resolvedStorage ⟨.ok 10, .ok 11⟩ 99 (some ⟨some .undef, some false⟩) = some 99) ∧
    ((Except.ok 10 : Except Unit Nat) = .error () →
      (⟨some .undef, some false⟩ : OptionsModel Nat).storageProp = none →
      (⟨some .undef, some false⟩ : OptionsModel Nat).memoryFallback = some false →
      resolvedStorage ⟨.ok 10, .ok 11⟩ 99 (some ⟨some .undef, some false⟩) = none) ∧
    ((⟨some .undef, some false⟩ : OptionsModel Nat).storageProp = some .undef →
      (⟨some .undef, some false⟩ : OptionsModel Nat).memoryFallback ≠ some false →
      resolvedStorage ⟨.ok 10, .ok 11⟩ 99 (some ⟨some .undef, some false⟩) = some 99) ∧
    ((⟨some .undef, some false⟩ : OptionsModel Nat).storageProp = some .undef →
      (⟨some .undef, some false⟩ : OptionsModel Nat).memoryFallback = some false →
      resolvedStorage ⟨.ok 10, .ok 11⟩ 99 (some ⟨some .undef, some false⟩) = none) :=
  spec_backend_resolution ⟨.ok 10, .ok 11⟩ 99 ⟨some .undef, some false⟩ 10
